import Mathlib

/-!
# Verification of the Color-Rain animation (`src/App.jsx`)

Shallow embedding of the single React component in `src/App.jsx`.  The component
keeps four pieces of animation state — the cell grid (`gridState`), the list of
active falling drops (`activeDropsRef`), the index of the color currently being
spawned (`currentSpawningColorIndexRef`) and the queue of columns waiting for a
spawn (`nextColorSpawnQueueRef`) — and advances them with one `setInterval`
callback per tick.  We model one tick as a pure function of that state.

Modelling decisions, each tied to the JavaScript source:

* JavaScript numbers that only ever hold small non-negative integers (rows,
  columns, drop rows, life counters, RGB components) are modelled as `ℕ`.
  The dimension-clamping handlers, which can see negative and non-numeric
  input, use `ℤ` with `Option` for `parseInt`'s `NaN`.
* `Math.floor(i * (255 / stepsPerSegment))` is computed by the browser in IEEE
  double arithmetic; we model the doubles by exact rationals, so the floor is
  the natural-number division `i * 255 / stepsPerSegment`.
* `Math.random()`-driven shuffling (`shuffleArray`) is nondeterministic; the
  shuffle is passed in as an explicit function parameter, and theorems that
  need its output assume it permutes its input (which Fisher–Yates always does).
* A drop's `color` field holds a reference to an element of the global array
  `SMOOTH_VIBGYOR_COLORS`; `===` on it (line 155) is reference equality, which
  coincides with index equality because every element of that array is a fresh
  array object.  We therefore store the spectrum index in the drop
  (`colorIdx`), and prove separately (`smooth_spectrum_nodup`) that the 120
  color values are pairwise distinct, so index equality also coincides with
  value equality.
* The spread `{ ...prevGridState[r][c] }` on line 128 turns `null` into the
  empty object `{}`, which is truthy but has no `life` field; the decay branch
  tests on lines 135 and 137 are then both false.  The cell type has a
  dedicated constructor `Cell.emptyObj` for this value.
* Every grid read and write is modelled as a fallible (`Option`) operation
  that fails when the index is out of range, mirroring the `TypeError` that
  JavaScript would raise on `undefined[c]`, `undefined.length` or
  `undefined.life`; the whole tick therefore returns `Option AnimState`, and
  bounds safety is the theorem that it never returns `none`.
-/

namespace ColorRain

/-- RGB triple, the element type of the color spectrum. -/
abbrev Color := ℕ × ℕ × ℕ

/-- `DROP_LIFE_SPAN` (App.jsx line 46): frames a colored block stays visible. -/
def DROP_LIFE_SPAN : ℕ := 7

/-- `MIN_DIMENSION` (App.jsx line 50). -/
def MIN_DIMENSION : ℤ := 1

/-- `MAX_DIMENSION` (App.jsx line 51). -/
def MAX_DIMENSION : ℤ := 25

/-- `generateSmoothSpectrum` (App.jsx lines 5–39).  Six hue segments of
`stepsPerSegment = max 1 ⌊numSteps / 6⌋` entries each, then
`colors.slice(0, numSteps)`.  The JavaScript ramp value
`Math.floor(i * (255 / stepsPerSegment))` is modelled in exact rational
arithmetic, i.e. as `i * 255 / s` in natural division. -/
def generateSmoothSpectrum (numSteps : ℕ := 120) : List Color :=
  let s := max 1 (numSteps / 6)
  let ramp : ℕ → ℕ := fun i => i * 255 / s
  ((List.range s).map (fun i => (255, ramp i, 0)) ++
   ((List.range s).map (fun i => (255 - ramp i, 255, 0)) ++
    ((List.range s).map (fun i => (0, 255, ramp i)) ++
     ((List.range s).map (fun i => (0, 255 - ramp i, 255)) ++
      ((List.range s).map (fun i => (ramp i, 0, 255)) ++
       (List.range s).map (fun i => (255, 0, 255 - ramp i))))))).take numSteps

/-- `SMOOTH_VIBGYOR_COLORS` (App.jsx line 42). -/
def SMOOTH_VIBGYOR_COLORS : List Color := generateSmoothSpectrum 120

/-- One grid cell.  `null` is the transparent cell; `emptyObj` is the empty
object `{}` produced by spreading `null` (see module comment); `mk r g b life`
is the object `{r, g, b, life}`. -/
inductive Cell where
  | null : Cell
  | emptyObj : Cell
  | mk (r g b : ℕ) (life : ℕ) : Cell
  deriving DecidableEq, Repr

/-- The grid: an array of rows, each an array of cells. -/
abbrev Grid := List (List Cell)

/-- A falling drop head (App.jsx lines 205–209): `{col, row, color}`, with the
color stored as its index into `SMOOTH_VIBGYOR_COLORS` (see module comment). -/
structure Drop where
  col : ℕ
  row : ℕ
  colorIdx : ℕ
  deriving DecidableEq, Repr

/-- The animation state: `gridState`, `activeDropsRef.current`,
`currentSpawningColorIndexRef.current`, `nextColorSpawnQueueRef.current`. -/
structure AnimState where
  grid : Grid
  drops : List Drop
  colorIdx : ℕ
  queue : List ℕ
  deriving DecidableEq, Repr

/-- Read `g[r][c]`; `none` models an access that JavaScript could not complete
(row or column index out of range). -/
def getCell (g : Grid) (r c : ℕ) : Option Cell :=
  (g[r]?).bind (fun row => row[c]?)

/-- Write `g[r][c] = v`.  Fails when the row does not exist (JavaScript would
throw on `undefined[c] = v`) or when the column index is past the end of the
row (JavaScript would silently grow the row, which never happens in this
program — treating it as a failure lets the safety theorem rule it out). -/
def setCell (g : Grid) (r c : ℕ) (v : Cell) : Option Grid :=
  match g[r]? with
  | none => none
  | some row => if c < row.length then some (g.set r (row.set c v)) else none

/-- `shuffleArray` (App.jsx lines 81–87) is Fisher–Yates driven by
`Math.random()`; it returns some permutation of its input.  The tick takes the
whole shuffle as an oracle `shuffle : List ℕ → List ℕ`; theorems that depend on
its output assume it permutes its input. -/
def generateNewSpawnColumns (cols : ℕ) (shuffle : List ℕ → List ℕ) : List ℕ :=
  let maxSpawnCol := max 0 (cols - 1)
  let dynamicNumDrops := max 1 (cols * 1 / 4)
  let availableCols := List.range (maxSpawnCol + 1)
  let shuffledCols := shuffle availableCols
  shuffledCols.take (min dynamicNumDrops availableCols.length)

/-- The shallow copy `{ ...cell }` (App.jsx line 128): spreading `null` gives
the empty object; spreading an object copies its fields. -/
def copyCell : Cell → Cell
  | Cell.null => Cell.emptyObj
  | c => c

/-- Inner copy loop (App.jsx line 127–129): for each `c` in the given index
list, `newGridState[r][c] = { ...prevRow[c] }`. -/
def copyColsLoop (prow : List Cell) (r : ℕ) (g : Grid) : List ℕ → Option Grid
  | [] => some g
  | c :: cs => do
      let v ← prow[c]?
      let g' ← setCell g r c (copyCell v)
      copyColsLoop prow r g' cs

/-- Outer copy loop (App.jsx lines 126–130): for each `r` in the given index
list, copy row `r` of the previous grid up to `min(prevRow.length, gridCols)`
columns. -/
def copyRowsLoop (prev : Grid) (cols : ℕ) (g : Grid) : List ℕ → Option Grid
  | [] => some g
  | r :: rs => do
      let prow ← prev[r]?
      let g' ← copyColsLoop prow r g (List.range (min prow.length cols))
      copyRowsLoop prev cols g' rs

/-- The bounded deep copy at the top of the tick (App.jsx lines 125–130):
start from a fresh `gridRows × gridCols` matrix of `null` and copy the
overlapping rectangle of the previous grid into it. -/
def copyGrid (rows cols : ℕ) (prev : Grid) : Option Grid :=
  copyRowsLoop prev cols (List.replicate rows (List.replicate cols Cell.null))
    (List.range (min prev.length rows))

/-- One cell's decay step (App.jsx lines 135–139).  An object with `life > 0`
is decremented; an object with `life <= 0` becomes `null`; the `null` cell is
falsy and the empty object has no `life` field, so both are left unchanged. -/
def decayCell : Cell → Cell
  | Cell.mk r g b life => if 0 < life then Cell.mk r g b (life - 1) else Cell.null
  | c => c

/-- Inner decay loop over the columns of row `r` (App.jsx lines 134–140).
The JavaScript loop reads `newGridState[r][c]` and mutates it in the two
object branches; writing the (unchanged) value back in the other two branches
is extensionally identical. -/
def decayColsLoop (r : ℕ) (g : Grid) : List ℕ → Option Grid
  | [] => some g
  | c :: cs => do
      let v ← getCell g r c
      let g' ← setCell g r c (decayCell v)
      decayColsLoop r g' cs

/-- Outer decay loop (App.jsx lines 133–141). -/
def decayRowsLoop (cols : ℕ) (g : Grid) : List ℕ → Option Grid
  | [] => some g
  | r :: rs => do
      let g' ← decayColsLoop r g (List.range cols)
      decayRowsLoop cols g' rs

/-- Step 1 of the tick: decay every cell of the `gridRows × gridCols` grid. -/
def decayGrid (rows cols : ℕ) (g : Grid) : Option Grid :=
  decayRowsLoop cols g (List.range rows)

/-- Trail-painting loop for one drop (App.jsx lines 161–173).  The JavaScript
loop runs `r` from `drop.row` down to `max(0, drop.row - DROP_LIFE_SPAN + 1)`;
we iterate the offset `k = drop.row - r` over the given list (the caller
passes `List.range (min (drop.row + 1) DROP_LIFE_SPAN)`).  Each in-bounds cell
is overwritten with the drop's color and `life = DROP_LIFE_SPAN - k`. -/
def paintLoop (rows cols : ℕ) (color : Color) (d : Drop) (g : Grid) :
    List ℕ → Option Grid
  | [] => some g
  | k :: ks => do
      let r := d.row - k
      let g' ←
        if r < rows ∧ d.col < cols then
          setCell g r d.col (Cell.mk color.1 color.2.1 color.2.2 (DROP_LIFE_SPAN - k))
        else some g
      paintLoop rows cols color d g' ks

/-- Paint one drop's trail (App.jsx lines 159–173).  `drop.color[0..2]` are
read through the drop's spectrum index; an out-of-range index is a failed
access. -/
def paintTrail (rows cols : ℕ) (spec : List Color) (d : Drop) (g : Grid) :
    Option Grid := do
  let color ← spec[d.colorIdx]?
  paintLoop rows cols color d g (List.range (min (d.row + 1) DROP_LIFE_SPAN))

/-- The keep-condition of App.jsx line 177: a drop stays active iff
`newRow < gridRows + DROP_LIFE_SPAN && drop.col < gridCols`. -/
def dropKeep (rows cols : ℕ) (d : Drop) : Bool :=
  decide (d.row + 1 < rows + DROP_LIFE_SPAN) && decide (d.col < cols)

/-- The `currentActiveDrops.forEach` body (App.jsx lines 151–180): per drop,
(1) set the midpoint flag when the drop carries the currently-spawning color
and `drop.row >= Math.floor(gridRows / 2)`, (2) paint its trail, (3) append
the advanced drop to `updatedDrops` when the keep-condition holds. -/
def dropsLoop (rows cols : ℕ) (spec : List Color) (idx : ℕ) :
    List Drop → Grid → List Drop → Bool → Option (Grid × List Drop × Bool)
  | [], g, upd, flag => some (g, upd, flag)
  | d :: ds, g, upd, flag => do
      let flag' := flag || (d.colorIdx == idx && decide (rows / 2 ≤ d.row))
      let g' ← paintTrail rows cols spec d g
      let upd' := if dropKeep rows cols d then upd ++ [{ d with row := d.row + 1 }] else upd
      dropsLoop rows cols spec idx ds g' upd' flag'

/-- The pure tail of the tick (App.jsx lines 183–213): store `updatedDrops`,
advance the spawning color and refill the queue when the midpoint flag is set
and the queue is empty (lines 190–196), then pop one queued column and spawn a
drop at row 0 when the column is inside the current bounds (lines 199–211). -/
def advanceAndSpawn (cols : ℕ) (spec : List Color) (shuffle : List ℕ → List ℕ)
    (s : AnimState) (g : Grid) (upd : List Drop) (flag : Bool) : AnimState :=
  let p : ℕ × List ℕ :=
    if flag && s.queue.isEmpty then
      ((s.colorIdx + 1) % spec.length, generateNewSpawnColumns cols shuffle)
    else (s.colorIdx, s.queue)
  match p.2 with
  | [] => { grid := g, drops := upd, colorIdx := p.1, queue := [] }
  | colToSpawn :: rest =>
      { grid := g,
        drops := if colToSpawn < cols then upd ++ [⟨colToSpawn, 0, p.1⟩] else upd,
        colorIdx := p.1,
        queue := rest }

/-- One animation tick (the `setInterval` callback, App.jsx lines 120–214),
as a function of the current dimensions, the color spectrum, the shuffle
oracle and the animation state.  `none` would mean an out-of-range access. -/
def tick (rows cols : ℕ) (spec : List Color) (shuffle : List ℕ → List ℕ)
    (s : AnimState) : Option AnimState := do
  let g1 ← copyGrid rows cols s.grid
  let g2 ← decayGrid rows cols g1
  let (g3, upd, flag) ← dropsLoop rows cols spec s.colorIdx s.drops g2 [] false
  some (advanceAndSpawn cols spec shuffle s g3 upd flag)

/-- The effect body that runs on mount and on every dimension change
(App.jsx lines 111–116): clear the drops, reset the spawning color index to 0,
repopulate the spawn queue for the new width, and rebuild the grid as a fresh
all-`null` `gridRows × gridCols` matrix. -/
def initState (rows cols : ℕ) (shuffle : List ℕ → List ℕ) : AnimState where
  grid := List.replicate rows (List.replicate cols Cell.null)
  drops := []
  colorIdx := 0
  queue := generateNewSpawnColumns cols shuffle

/-- The `onChange` handlers of the rows/cols inputs (App.jsx lines 240–259):
`parseInt` yields a number or `NaN` (modelled as `Option ℤ`, `none` for
`NaN`); `value || MIN_DIMENSION` replaces the falsy numbers `NaN` and `0` by
the minimum; the result is clamped with
`Math.min(Math.max(·, MIN_DIMENSION), MAX_DIMENSION)`. -/
def clampDimension (value : Option ℤ) : ℤ :=
  let v : ℤ :=
    match value with
    | none => MIN_DIMENSION
    | some n => if n = 0 then MIN_DIMENSION else n
  min (max v MIN_DIMENSION) MAX_DIMENSION

/-- `g` is a `rows × cols` matrix. -/
def gridDims (g : Grid) (rows cols : ℕ) : Prop :=
  g.length = rows ∧ ∀ row ∈ g, row.length = cols

/-- Drop `d`'s trail covers cell `(r, c)` this tick (the cells actually
written by the paint loop, App.jsx lines 161–172): same column, within
`DROP_LIFE_SPAN` rows above the head, inside the grid. -/
def coversCell (rows cols : ℕ) (d : Drop) (r c : ℕ) : Prop :=
  c = d.col ∧ r ≤ d.row ∧ d.row < r + DROP_LIFE_SPAN ∧ r < rows ∧ c < cols

instance (rows cols : ℕ) (d : Drop) (r c : ℕ) :
    Decidable (coversCell rows cols d r c) := by
  unfold coversCell
  infer_instance

instance (g : Grid) (rows cols : ℕ) : Decidable (gridDims g rows cols) := by
  unfold gridDims
  infer_instance

/-! ## Basic grid lemmas -/

lemma gridDims_replicate (rows cols : ℕ) :
    gridDims (List.replicate rows (List.replicate cols Cell.null)) rows cols := by
  refine ⟨by simp, ?_⟩
  intro row hrow
  simp [List.eq_of_mem_replicate hrow]

lemma getCell_replicate (rows cols r c : ℕ) (hr : r < rows) (hc : c < cols) :
    getCell (List.replicate rows (List.replicate cols Cell.null)) r c = some Cell.null := by
  simp [getCell, List.getElem?_replicate, hr, hc]

lemma getCell_some_of_dims {g : Grid} {rows cols : ℕ} (r c : ℕ)
    (hg : gridDims g rows cols) (hr : r < rows) (hc : c < cols) :
    ∃ v, getCell g r c = some v := by
  obtain ⟨hlen, hrows⟩ := hg
  have hrg : r < g.length := by omega
  have hcl : c < g[r].length := by
    rw [hrows _ (List.getElem_mem hrg)]
    exact hc
  exact ⟨g[r][c], by simp [getCell, List.getElem?_eq_getElem hrg, List.getElem?_eq_getElem hcl]⟩

/-- `setCell` inside the dimensions always succeeds, preserves the dimensions,
and changes exactly the addressed cell. -/
lemma setCell_spec {g : Grid} {rows cols : ℕ} (r c : ℕ) (v : Cell)
    (hg : gridDims g rows cols) (hr : r < rows) (hc : c < cols) :
    ∃ g', setCell g r c v = some g' ∧ gridDims g' rows cols ∧
      ∀ r' c', getCell g' r' c' =
        if r' = r ∧ c' = c then some v else getCell g r' c' := by
  obtain ⟨hlen, hrows⟩ := hg
  have hrg : r < g.length := by omega
  have hrow : g[r]? = some g[r] := List.getElem?_eq_getElem hrg
  have hmem : g[r] ∈ g := List.getElem_mem hrg
  have hcl : c < g[r].length := by rw [hrows _ hmem]; exact hc
  refine ⟨g.set r (g[r].set c v), ?_, ⟨by simp [hlen], ?_⟩, ?_⟩
  · simp [setCell, hrow, hcl]
  · intro row hrowmem
    rcases List.mem_or_eq_of_mem_set hrowmem with h | h
    · exact hrows _ h
    · subst h
      simp [hrows _ hmem]
  · intro r' c'
    by_cases hr' : r' = r
    · subst hr'
      have hset : (g.set r' (g[r'].set c v))[r']? = some (g[r'].set c v) :=
        List.getElem?_set_self (by simpa using hrg)
      by_cases hc' : c' = c
      · subst hc'
        simp [getCell, hset, List.getElem?_set_self hcl]
      · simp only [getCell, hset, hrow, Option.some_bind]
        rw [List.getElem?_set_ne (fun h => hc' h.symm)]
        simp [hc']
    · simp only [getCell]
      rw [List.getElem?_set_ne (fun h => hr' h.symm)]
      simp [hr']

/-- A successful `setCell` leaves every other cell unchanged (no dimension
hypotheses needed). -/
lemma getCell_setCell_ne {g g' : Grid} {r0 c0 : ℕ} {v : Cell}
    (h : setCell g r0 c0 v = some g') (r c : ℕ) (hne : ¬ (r = r0 ∧ c = c0)) :
    getCell g' r c = getCell g r c := by
  unfold setCell at h
  cases hrow : g[r0]? with
  | none => rw [hrow] at h; exact absurd h (by simp)
  | some row =>
      simp only [hrow] at h
      by_cases hcl : c0 < row.length
      · rw [if_pos hcl, Option.some.injEq] at h
        subst h
        by_cases hr' : r = r0
        · subst hr'
          have hc' : c ≠ c0 := fun hcc => hne ⟨rfl, hcc⟩
          have hrg : r < g.length := by
            by_contra hnot
            have hgr : g[r]? = none := List.getElem?_eq_none (by omega)
            rw [hgr] at hrow
            exact absurd hrow (by simp)
          have hset : (g.set r (row.set c0 v))[r]? = some (row.set c0 v) :=
            List.getElem?_set_self (by simpa using hrg)
          simp only [getCell, hset, hrow, Option.some_bind]
          exact List.getElem?_set_ne (fun hh => hc' hh.symm)
        · simp only [getCell]
          rw [List.getElem?_set_ne (fun hh => hr' hh.symm)]
      · rw [if_neg hcl] at h
        exact absurd h (by simp)

/-! ## Grid copy (App.jsx lines 125–130) -/

lemma copyColsLoop_spec {rows cols : ℕ} (prow : List Cell) (r : ℕ) (cs : List ℕ) :
    ∀ g : Grid, gridDims g rows cols → r < rows →
    (∀ c ∈ cs, c < prow.length ∧ c < cols) →
    ∃ g', copyColsLoop prow r g cs = some g' ∧ gridDims g' rows cols ∧
      ∀ r' c', getCell g' r' c' =
        if r' = r ∧ c' ∈ cs then (prow[c']?).map copyCell else getCell g r' c' := by
  induction cs with
  | nil =>
      intro g hg _ _
      exact ⟨g, rfl, hg, by intro r' c'; simp⟩
  | cons c cs ih =>
      intro g hg hr hcs
      obtain ⟨hcp, hcc⟩ := hcs c (List.mem_cons_self c cs)
      have hv : prow[c]? = some prow[c] := List.getElem?_eq_getElem hcp
      obtain ⟨g1, hset, hg1, hpt1⟩ := setCell_spec r c (copyCell prow[c]) hg hr hcc
      obtain ⟨g', hrec, hg', hpt⟩ := ih g1 hg1 hr (fun x hx => hcs x (List.mem_cons_of_mem _ hx))
      refine ⟨g', ?_, hg', ?_⟩
      · simp only [copyColsLoop, hv, Option.bind_eq_bind, Option.some_bind, hset]
        exact hrec
      · intro r' c'
        rw [hpt r' c', hpt1 r' c']
        by_cases h1 : r' = r ∧ c' ∈ cs
        · rw [if_pos h1, if_pos ⟨h1.1, List.mem_cons_of_mem _ h1.2⟩]
        · rw [if_neg h1]
          by_cases h2 : r' = r ∧ c' = c
          · rw [if_pos h2, if_pos ⟨h2.1, by rw [h2.2]; exact List.mem_cons_self c cs⟩]
            rw [h2.2, hv, Option.map_some']
          · rw [if_neg h2, if_neg ?_]
            intro hcon
            rcases List.mem_cons.mp hcon.2 with h | h
            · exact h2 ⟨hcon.1, h⟩
            · exact h1 ⟨hcon.1, h⟩

lemma copyRowsLoop_spec {rows cols : ℕ} (prev : Grid) (rs : List ℕ) :
    ∀ g : Grid, gridDims g rows cols →
    (∀ r ∈ rs, r < prev.length ∧ r < rows) →
    ∃ g', copyRowsLoop prev cols g rs = some g' ∧ gridDims g' rows cols ∧
      ∀ r' c', getCell g' r' c' =
        if r' ∈ rs ∧ c' < cols ∧ (getCell prev r' c').isSome
        then (getCell prev r' c').map copyCell else getCell g r' c' := by
  induction rs with
  | nil =>
      intro g hg _
      exact ⟨g, rfl, hg, by intro r' c'; simp⟩
  | cons r rs ih =>
      intro g hg hrs
      obtain ⟨hrp, hrr⟩ := hrs r (List.mem_cons_self r rs)
      have hprow : prev[r]? = some prev[r] := List.getElem?_eq_getElem hrp
      obtain ⟨g1, hcols, hg1, hpt1⟩ :=
        copyColsLoop_spec prev[r] r (List.range (min prev[r].length cols)) g hg hrr
          (fun c hc => by rw [List.mem_range] at hc; omega)
      obtain ⟨g', hrec, hg', hpt⟩ := ih g1 hg1 (fun x hx => hrs x (List.mem_cons_of_mem _ hx))
      refine ⟨g', ?_, hg', ?_⟩
      · simp only [copyRowsLoop, hprow, Option.bind_eq_bind, Option.some_bind, hcols]
        exact hrec
      · intro r' c'
        rw [hpt r' c', hpt1 r' c']
        by_cases h1 : r' ∈ rs ∧ c' < cols ∧ (getCell prev r' c').isSome
        · rw [if_pos h1, if_pos ⟨List.mem_cons_of_mem _ h1.1, h1.2⟩]
        · rw [if_neg h1]
          by_cases h2 : r' = r ∧ c' ∈ List.range (min prev[r].length cols)
          · obtain ⟨hre, hcm⟩ := h2
            rw [List.mem_range] at hcm
            subst hre
            rw [if_pos ⟨rfl, List.mem_range.mpr hcm⟩]
            have hpc : getCell prev r' c' = prev[r']?.bind (fun row => row[c']?) := rfl
            rw [if_pos ?side, hpc, hprow, Option.some_bind]
            case side =>
              refine ⟨List.mem_cons_self _ _, by omega, ?_⟩
              rw [hpc, hprow, Option.some_bind]
              rw [List.getElem?_eq_getElem (by omega)]
              rfl
          · rw [if_neg h2, if_neg ?_]
            intro hcon
            obtain ⟨hmem, hcc, hsome⟩ := hcon
            rcases List.mem_cons.mp hmem with h | h
            · subst h
              apply h2
              refine ⟨rfl, ?_⟩
              rw [List.mem_range]
              have hpc : getCell prev r' c' = prev[r']?.bind (fun row => row[c']?) := rfl
              rw [hpc, hprow, Option.some_bind] at hsome
              obtain ⟨v, hvv⟩ := Option.isSome_iff_exists.mp hsome
              obtain ⟨hlt, -⟩ := List.getElem?_eq_some_iff.mp hvv
              omega
            · exact h1 ⟨h, hcc, hsome⟩

lemma copyGrid_spec (rows cols : ℕ) (prev : Grid) :
    ∃ g, copyGrid rows cols prev = some g ∧ gridDims g rows cols ∧
      ∀ r c, r < rows → c < cols →
        getCell g r c = some ((getCell prev r c).elim Cell.null copyCell) := by
  obtain ⟨g, hloop, hg, hpt⟩ :=
    copyRowsLoop_spec prev (List.range (min prev.length rows))
      (List.replicate rows (List.replicate cols Cell.null)) (gridDims_replicate rows cols)
      (fun r hr => by rw [List.mem_range] at hr; omega)
  refine ⟨g, hloop, hg, ?_⟩
  intro r c hr hc
  rw [hpt r c]
  by_cases hcond : r ∈ List.range (min prev.length rows) ∧ c < cols ∧ (getCell prev r c).isSome
  · rw [if_pos hcond]
    obtain ⟨v, hv⟩ := Option.isSome_iff_exists.mp hcond.2.2
    rw [hv]
    simp
  · rw [if_neg hcond, getCell_replicate rows cols r c hr hc]
    have hnone : getCell prev r c = none := by
      by_contra hne
      apply hcond
      refine ⟨?_, hc, Option.ne_none_iff_isSome.mp hne⟩
      rw [List.mem_range]
      unfold getCell at hne
      cases hpr : prev[r]? with
      | none => rw [hpr] at hne; simp at hne
      | some row =>
          obtain ⟨hlt, -⟩ := List.getElem?_eq_some_iff.mp hpr
          omega
    rw [hnone]
    rfl

/-! ## Decay (App.jsx lines 132–141) -/

lemma decayColsLoop_spec {rows cols : ℕ} (r : ℕ) (cs : List ℕ) :
    ∀ g : Grid, gridDims g rows cols → r < rows → cs.Nodup →
    (∀ c ∈ cs, c < cols) →
    ∃ g', decayColsLoop r g cs = some g' ∧ gridDims g' rows cols ∧
      ∀ r' c', getCell g' r' c' =
        if r' = r ∧ c' ∈ cs then (getCell g r' c').map decayCell else getCell g r' c' := by
  induction cs with
  | nil =>
      intro g hg _ _ _
      exact ⟨g, rfl, hg, by intro r' c'; simp⟩
  | cons c cs ih =>
      intro g hg hr hnd hcs
      obtain ⟨hcnot, hnd'⟩ := List.nodup_cons.mp hnd
      have hcc : c < cols := hcs c (List.mem_cons_self c cs)
      obtain ⟨v, hv⟩ := getCell_some_of_dims r c hg hr hcc
      obtain ⟨g1, hset, hg1, hpt1⟩ := setCell_spec r c (decayCell v) hg hr hcc
      obtain ⟨g', hrec, hg', hpt⟩ :=
        ih g1 hg1 hr hnd' (fun x hx => hcs x (List.mem_cons_of_mem _ hx))
      refine ⟨g', ?_, hg', ?_⟩
      · simp only [decayColsLoop, hv, hset, Option.bind_eq_bind, Option.some_bind]
        exact hrec
      · intro r' c'
        rw [hpt r' c']
        by_cases h1 : r' = r ∧ c' ∈ cs
        · rw [if_pos h1, hpt1 r' c',
            if_neg (fun hh : r' = r ∧ c' = c => hcnot (hh.2 ▸ h1.2)),
            if_pos ⟨h1.1, List.mem_cons_of_mem _ h1.2⟩]
        · rw [if_neg h1, hpt1 r' c']
          by_cases h2 : r' = r ∧ c' = c
          · obtain ⟨hre, hce⟩ := h2
            subst hre
            subst hce
            rw [if_pos ⟨rfl, rfl⟩, if_pos ⟨rfl, List.mem_cons_self _ _⟩, hv, Option.map_some']
          · rw [if_neg h2, if_neg ?_]
            intro hcon
            rcases List.mem_cons.mp hcon.2 with h | h
            · exact h2 ⟨hcon.1, h⟩
            · exact h1 ⟨hcon.1, h⟩

lemma decayRowsLoop_spec {rows cols : ℕ} (rs : List ℕ) :
    ∀ g : Grid, gridDims g rows cols → rs.Nodup → (∀ r ∈ rs, r < rows) →
    ∃ g', decayRowsLoop cols g rs = some g' ∧ gridDims g' rows cols ∧
      ∀ r' c', getCell g' r' c' =
        if r' ∈ rs ∧ c' < cols then (getCell g r' c').map decayCell else getCell g r' c' := by
  induction rs with
  | nil =>
      intro g hg _ _
      exact ⟨g, rfl, hg, by intro r' c'; simp⟩
  | cons r rs ih =>
      intro g hg hnd hrs
      obtain ⟨hrnot, hnd'⟩ := List.nodup_cons.mp hnd
      have hrr : r < rows := hrs r (List.mem_cons_self r rs)
      obtain ⟨g1, hcols, hg1, hpt1⟩ :=
        decayColsLoop_spec r (List.range cols) g hg hrr (List.nodup_range cols)
          (fun c hc => List.mem_range.mp hc)
      obtain ⟨g', hrec, hg', hpt⟩ :=
        ih g1 hg1 hnd' (fun x hx => hrs x (List.mem_cons_of_mem _ hx))
      refine ⟨g', ?_, hg', ?_⟩
      · simp only [decayRowsLoop, hcols, Option.bind_eq_bind, Option.some_bind]
        exact hrec
      · intro r' c'
        rw [hpt r' c']
        by_cases h1 : r' ∈ rs ∧ c' < cols
        · have hne2 : ¬ (r' = r ∧ c' ∈ List.range cols) :=
            fun hh => hrnot (hh.1 ▸ h1.1)
          rw [if_pos h1, hpt1 r' c', if_neg hne2,
            if_pos ⟨List.mem_cons_of_mem _ h1.1, h1.2⟩]
        · rw [if_neg h1, hpt1 r' c']
          by_cases h2 : r' = r ∧ c' ∈ List.range cols
          · obtain ⟨hre, hcm⟩ := h2
            subst hre
            rw [if_pos ⟨rfl, hcm⟩, if_pos ⟨List.mem_cons_self _ _, List.mem_range.mp hcm⟩]
          · rw [if_neg h2, if_neg ?_]
            intro hcon
            rcases List.mem_cons.mp hcon.1 with h | h
            · exact h2 ⟨h, List.mem_range.mpr hcon.2⟩
            · exact h1 ⟨h, hcon.2⟩

lemma decayGrid_spec {rows cols : ℕ} (g : Grid) (hg : gridDims g rows cols) :
    ∃ g', decayGrid rows cols g = some g' ∧ gridDims g' rows cols ∧
      ∀ r c, r < rows → c < cols →
        getCell g' r c = (getCell g r c).map decayCell := by
  obtain ⟨g', hloop, hg', hpt⟩ :=
    decayRowsLoop_spec (List.range rows) g hg (List.nodup_range rows)
      (fun r hr => List.mem_range.mp hr)
  exact ⟨g', hloop, hg', fun r c hr hc => by
    rw [hpt r c, if_pos ⟨List.mem_range.mpr hr, hc⟩]⟩

/-! ## Trail painting (App.jsx lines 159–173) -/

lemma DROP_LIFE_SPAN_eq : DROP_LIFE_SPAN = 7 := rfl

lemma paintLoop_spec {rows cols : ℕ} (color : Color) (d : Drop) (ks : List ℕ) :
    ∀ g : Grid, gridDims g rows cols → (∀ k ∈ ks, k ≤ d.row) →
    ∃ g', paintLoop rows cols color d g ks = some g' ∧ gridDims g' rows cols ∧
      ∀ r c, getCell g' r c =
        if c = d.col ∧ r ≤ d.row ∧ (d.row - r) ∈ ks ∧ r < rows ∧ c < cols
        then some (Cell.mk color.1 color.2.1 color.2.2 (DROP_LIFE_SPAN - (d.row - r)))
        else getCell g r c := by
  induction ks with
  | nil =>
      intro g hg _
      exact ⟨g, rfl, hg, by intro r c; simp⟩
  | cons k ks ih =>
      intro g hg hks
      have hkd : k ≤ d.row := hks k (List.mem_cons_self k ks)
      by_cases hguard : d.row - k < rows ∧ d.col < cols
      · obtain ⟨g1, hset, hg1, hpt1⟩ :=
          setCell_spec (d.row - k) d.col
            (Cell.mk color.1 color.2.1 color.2.2 (DROP_LIFE_SPAN - k)) hg hguard.1 hguard.2
        obtain ⟨g', hrec, hg', hpt⟩ := ih g1 hg1 (fun x hx => hks x (List.mem_cons_of_mem _ hx))
        refine ⟨g', ?_, hg', ?_⟩
        · simp only [paintLoop, if_pos hguard, hset, Option.bind_eq_bind, Option.some_bind]
          exact hrec
        · intro r c
          rw [hpt r c]
          by_cases h1 : c = d.col ∧ r ≤ d.row ∧ (d.row - r) ∈ ks ∧ r < rows ∧ c < cols
          · rw [if_pos h1,
              if_pos ⟨h1.1, h1.2.1, List.mem_cons_of_mem _ h1.2.2.1, h1.2.2.2⟩]
          · rw [if_neg h1, hpt1 r c]
            by_cases h2 : r = d.row - k ∧ c = d.col
            · obtain ⟨hre, hce⟩ := h2
              have hdr : d.row - r = k := by omega
              rw [if_pos ⟨hre, hce⟩,
                if_pos ⟨hce, by omega, by rw [hdr]; exact List.mem_cons_self k ks,
                  by omega, by omega⟩, hdr]
            · rw [if_neg h2, if_neg ?_]
              intro hcon
              obtain ⟨hc1, hc2, hc3, hc4, hc5⟩ := hcon
              rcases List.mem_cons.mp hc3 with h | h
              · exact h2 ⟨by omega, hc1⟩
              · exact h1 ⟨hc1, hc2, h, hc4, hc5⟩
      · obtain ⟨g', hrec, hg', hpt⟩ := ih g hg (fun x hx => hks x (List.mem_cons_of_mem _ hx))
        refine ⟨g', ?_, hg', ?_⟩
        · simp only [paintLoop, if_neg hguard, Option.bind_eq_bind, Option.some_bind]
          exact hrec
        · intro r c
          rw [hpt r c]
          by_cases h1 : c = d.col ∧ r ≤ d.row ∧ (d.row - r) ∈ ks ∧ r < rows ∧ c < cols
          · rw [if_pos h1,
              if_pos ⟨h1.1, h1.2.1, List.mem_cons_of_mem _ h1.2.2.1, h1.2.2.2⟩]
          · rw [if_neg h1, if_neg ?_]
            intro hcon
            obtain ⟨hc1, hc2, hc3, hc4, hc5⟩ := hcon
            rcases List.mem_cons.mp hc3 with h | h
            · exact hguard ⟨by omega, hc1 ▸ hc5⟩
            · exact h1 ⟨hc1, hc2, h, hc4, hc5⟩

lemma paintTrail_spec {rows cols : ℕ} {spec : List Color} (d : Drop) {color : Color}
    (hcolor : spec[d.colorIdx]? = some color) (g : Grid) (hg : gridDims g rows cols) :
    ∃ g', paintTrail rows cols spec d g = some g' ∧ gridDims g' rows cols ∧
      ∀ r c, getCell g' r c =
        if coversCell rows cols d r c
        then some (Cell.mk color.1 color.2.1 color.2.2 (DROP_LIFE_SPAN - (d.row - r)))
        else getCell g r c := by
  obtain ⟨g', hloop, hg', hpt⟩ :=
    paintLoop_spec color d (List.range (min (d.row + 1) DROP_LIFE_SPAN)) g hg
      (fun k hk => by rw [List.mem_range] at hk; omega)
  refine ⟨g', ?_, hg', ?_⟩
  · simp only [paintTrail, hcolor, Option.bind_eq_bind, Option.some_bind]
    exact hloop
  · intro r c
    rw [hpt r c]
    unfold coversCell
    by_cases h1 : c = d.col ∧ r ≤ d.row ∧
        (d.row - r) ∈ List.range (min (d.row + 1) DROP_LIFE_SPAN) ∧ r < rows ∧ c < cols
    · obtain ⟨a, b, hmem, e, f⟩ := h1
      have hmem' := hmem
      rw [List.mem_range, DROP_LIFE_SPAN_eq] at hmem'
      rw [if_pos ⟨a, b, hmem, e, f⟩, if_pos ⟨a, b, by rw [DROP_LIFE_SPAN_eq]; omega, e, f⟩]
    · rw [if_neg h1, if_neg ?_]
      intro hcon
      obtain ⟨a, b, hlt, e, f⟩ := hcon
      rw [DROP_LIFE_SPAN_eq] at hlt
      refine h1 ⟨a, b, ?_, e, f⟩
      rw [List.mem_range, DROP_LIFE_SPAN_eq]
      omega

/-- A successful paint loop leaves every cell outside the drop's trail
unchanged (inversion form: no dimension hypotheses). -/
lemma paintLoop_preserve {rows cols : ℕ} {color : Color} {d : Drop} (ks : List ℕ) :
    ∀ g g' : Grid, (∀ k ∈ ks, k ≤ d.row ∧ k < DROP_LIFE_SPAN) →
    paintLoop rows cols color d g ks = some g' →
    ∀ r c, ¬ coversCell rows cols d r c → getCell g' r c = getCell g r c := by
  induction ks with
  | nil =>
      intro g g' _ h r c _
      cases h
      rfl
  | cons k ks ih =>
      intro g g' hks h r c hnc
      obtain ⟨hkd, hk7⟩ := hks k (List.mem_cons_self k ks)
      rw [DROP_LIFE_SPAN_eq] at hk7
      simp only [paintLoop, Option.bind_eq_bind] at h
      by_cases hguard : d.row - k < rows ∧ d.col < cols
      · rw [if_pos hguard] at h
        rw [Option.bind_eq_some] at h
        obtain ⟨g1, hset, hrec⟩ := h
        rw [ih g1 g' (fun x hx => hks x (List.mem_cons_of_mem _ hx)) hrec r c hnc]
        refine getCell_setCell_ne hset r c ?_
        intro hh
        exact hnc ⟨hh.2, by omega, by rw [DROP_LIFE_SPAN_eq]; omega, by omega,
          hh.2 ▸ hguard.2⟩
      · rw [if_neg hguard, Option.some_bind] at h
        exact ih g g' (fun x hx => hks x (List.mem_cons_of_mem _ hx)) h r c hnc

/-- A successful `paintTrail` leaves every cell outside the drop's trail
unchanged. -/
lemma paintTrail_preserve {rows cols : ℕ} {spec : List Color} {d : Drop} {g g' : Grid}
    (h : paintTrail rows cols spec d g = some g') (r c : ℕ)
    (hnc : ¬ coversCell rows cols d r c) : getCell g' r c = getCell g r c := by
  simp only [paintTrail, Option.bind_eq_bind] at h
  rw [Option.bind_eq_some] at h
  obtain ⟨color, hcolor, hloop⟩ := h
  refine paintLoop_preserve _ g g' ?_ hloop r c hnc
  intro k hk
  rw [List.mem_range, DROP_LIFE_SPAN_eq] at hk
  rw [DROP_LIFE_SPAN_eq]
  omega

/-! ## The drops loop (App.jsx lines 151–180) -/

/-- Inversion on a successful drops loop: the produced list of surviving drops
is the filter of the keep-condition of line 177, advanced by one row; the
midpoint flag is the disjunction of the per-drop tests of line 155; cells not
covered by any drop's trail are unchanged. -/
lemma dropsLoop_inv {rows cols : ℕ} {spec : List Color} {idx : ℕ} (ds : List Drop) :
    ∀ (g : Grid) (upd : List Drop) (flag : Bool) (g' : Grid) (upd' : List Drop) (flag' : Bool),
    dropsLoop rows cols spec idx ds g upd flag = some (g', upd', flag') →
    upd' = upd ++ (ds.filter (dropKeep rows cols)).map (fun d => { d with row := d.row + 1 }) ∧
    flag' = (flag || ds.any (fun d => d.colorIdx == idx && decide (rows / 2 ≤ d.row))) ∧
    ∀ r c, (∀ d ∈ ds, ¬ coversCell rows cols d r c) → getCell g' r c = getCell g r c := by
  induction ds with
  | nil =>
      intro g upd flag g' upd' flag' h
      simp only [dropsLoop, Option.some.injEq, Prod.mk.injEq] at h
      obtain ⟨h1, h2, h3⟩ := h
      subst h1
      subst h2
      subst h3
      exact ⟨by simp, by simp, fun r c _ => rfl⟩
  | cons d ds ih =>
      intro g upd flag g' upd' flag' h
      simp only [dropsLoop, Option.bind_eq_bind] at h
      rw [Option.bind_eq_some] at h
      obtain ⟨g1, hpaint, hrec⟩ := h
      obtain ⟨hupd, hflag, hpres⟩ := ih g1 _ _ g' upd' flag' hrec
      refine ⟨?_, ?_, ?_⟩
      · rw [hupd, List.filter_cons]
        by_cases hk : dropKeep rows cols d = true
        · rw [if_pos hk, if_pos hk]
          simp [List.append_assoc]
        · rw [if_neg hk, if_neg hk]
      · rw [hflag, List.any_cons]
        simp [Bool.or_assoc]
      · intro r c hnc
        rw [hpres r c (fun x hx => hnc x (List.mem_cons_of_mem _ hx)),
          paintTrail_preserve hpaint r c (hnc d (List.mem_cons_self d ds))]

/-- The drops loop succeeds and preserves the grid dimensions whenever every
drop's color index is inside the spectrum. -/
lemma dropsLoop_total {rows cols : ℕ} {spec : List Color} {idx : ℕ} (ds : List Drop) :
    ∀ (g : Grid) (upd : List Drop) (flag : Bool), gridDims g rows cols →
    (∀ d ∈ ds, d.colorIdx < spec.length) →
    ∃ g' upd' flag', dropsLoop rows cols spec idx ds g upd flag = some (g', upd', flag') ∧
      gridDims g' rows cols := by
  induction ds with
  | nil =>
      intro g upd flag hg _
      exact ⟨g, upd, flag, rfl, hg⟩
  | cons d ds ih =>
      intro g upd flag hg hds
      have hlt : d.colorIdx < spec.length := hds d (List.mem_cons_self d ds)
      have hcolor : spec[d.colorIdx]? = some spec[d.colorIdx] := List.getElem?_eq_getElem hlt
      obtain ⟨g1, hpaint, hg1, -⟩ := paintTrail_spec d hcolor g hg
      obtain ⟨g', upd', flag', hrec, hg'⟩ :=
        ih g1 _ _ hg1 (fun x hx => hds x (List.mem_cons_of_mem _ hx))
      refine ⟨g', upd', flag', ?_, hg'⟩
      simp only [dropsLoop, Option.bind_eq_bind, hpaint, Option.some_bind]
      exact hrec

/-! ## The tick (App.jsx lines 120–214) -/

lemma tick_eq {rows cols : ℕ} {spec : List Color} (shuffle : List ℕ → List ℕ) (s : AnimState)
    {g1 g2 g3 : Grid} {upd : List Drop} {flag : Bool}
    (h1 : copyGrid rows cols s.grid = some g1)
    (h2 : decayGrid rows cols g1 = some g2)
    (h3 : dropsLoop rows cols spec s.colorIdx s.drops g2 [] false = some (g3, upd, flag)) :
    tick rows cols spec shuffle s = some (advanceAndSpawn cols spec shuffle s g3 upd flag) := by
  simp only [tick, Option.bind_eq_bind, h1, h2, h3, Option.some_bind]

lemma tick_inv {rows cols : ℕ} {spec : List Color} {shuffle : List ℕ → List ℕ}
    {s s' : AnimState} (h : tick rows cols spec shuffle s = some s') :
    ∃ g1 g2 g3 upd flag,
      copyGrid rows cols s.grid = some g1 ∧
      decayGrid rows cols g1 = some g2 ∧
      dropsLoop rows cols spec s.colorIdx s.drops g2 [] false = some (g3, upd, flag) ∧
      s' = advanceAndSpawn cols spec shuffle s g3 upd flag := by
  simp only [tick, Option.bind_eq_bind] at h
  rw [Option.bind_eq_some] at h
  obtain ⟨g1, h1, h⟩ := h
  rw [Option.bind_eq_some] at h
  obtain ⟨g2, h2, h⟩ := h
  rw [Option.bind_eq_some] at h
  obtain ⟨⟨g3, upd, flag⟩, h3, h⟩ := h
  simp only [Option.some.injEq] at h
  exact ⟨g1, g2, g3, upd, flag, h1, h2, h3, h.symm⟩

lemma advanceAndSpawn_grid (cols : ℕ) (spec : List Color) (shuffle : List ℕ → List ℕ)
    (s : AnimState) (g : Grid) (upd : List Drop) (flag : Bool) :
    (advanceAndSpawn cols spec shuffle s g upd flag).grid = g := by
  unfold advanceAndSpawn
  by_cases hcond : (flag && s.queue.isEmpty) = true
  · rw [if_pos hcond]
    cases generateNewSpawnColumns cols shuffle <;> simp
  · rw [if_neg hcond]
    cases s.queue <;> simp

lemma advanceAndSpawn_colorIdx (cols : ℕ) (spec : List Color) (shuffle : List ℕ → List ℕ)
    (s : AnimState) (g : Grid) (upd : List Drop) (flag : Bool) :
    (advanceAndSpawn cols spec shuffle s g upd flag).colorIdx =
      if flag && s.queue.isEmpty then (s.colorIdx + 1) % spec.length else s.colorIdx := by
  unfold advanceAndSpawn
  by_cases hcond : (flag && s.queue.isEmpty) = true
  · rw [if_pos hcond, if_pos hcond]
    cases generateNewSpawnColumns cols shuffle <;> simp
  · rw [if_neg hcond, if_neg hcond]
    cases s.queue <;> simp

lemma advanceAndSpawn_drops (cols : ℕ) (spec : List Color) (shuffle : List ℕ → List ℕ)
    (s : AnimState) (g : Grid) (upd : List Drop) (flag : Bool) :
    ∃ spawned : List Drop,
      (advanceAndSpawn cols spec shuffle s g upd flag).drops = upd ++ spawned ∧
      (spawned = [] ∨ ∃ c, c < cols ∧
        spawned = [⟨c, 0, (advanceAndSpawn cols spec shuffle s g upd flag).colorIdx⟩]) := by
  unfold advanceAndSpawn
  by_cases hcond : (flag && s.queue.isEmpty) = true
  · rw [if_pos hcond]
    cases generateNewSpawnColumns cols shuffle with
    | nil => exact ⟨[], by simp, Or.inl rfl⟩
    | cons c rest =>
        by_cases hc : c < cols
        · exact ⟨[⟨c, 0, (s.colorIdx + 1) % spec.length⟩], by simp [hc], Or.inr ⟨c, hc, by simp⟩⟩
        · exact ⟨[], by simp [hc], Or.inl rfl⟩
  · rw [if_neg hcond]
    cases s.queue with
    | nil => exact ⟨[], by simp, Or.inl rfl⟩
    | cons c rest =>
        by_cases hc : c < cols
        · exact ⟨[⟨c, 0, s.colorIdx⟩], by simp [hc], Or.inr ⟨c, hc, by simp⟩⟩
        · exact ⟨[], by simp [hc], Or.inl rfl⟩

/-! ## Spawn columns (App.jsx lines 91–103) -/

/-- When the shuffle is a permutation (as Fisher–Yates always is) and there is
at least one column, `generateNewSpawnColumns` returns
`min (max 1 ⌊cols/4⌋) cols` distinct-source columns, all inside `[0, cols)`. -/
lemma generateNewSpawnColumns_props (cols : ℕ) (shuffle : List ℕ → List ℕ)
    (hc : 1 ≤ cols) (hperm : (shuffle (List.range cols)).Perm (List.range cols)) :
    (generateNewSpawnColumns cols shuffle).length = min (max 1 (cols / 4)) cols ∧
    ∀ c ∈ generateNewSpawnColumns cols shuffle, c < cols := by
  have hmax : max 0 (cols - 1) + 1 = cols := by omega
  simp only [generateNewSpawnColumns]
  rw [hmax]
  constructor
  · rw [List.length_take, List.length_range, hperm.length_eq, List.length_range]
    omega
  · intro c hcmem
    have hmem : c ∈ shuffle (List.range cols) := List.mem_of_mem_take hcmem
    rw [hperm.mem_iff, List.mem_range] at hmem
    exact hmem

/-- All 120 entries of the color spectrum are pairwise distinct values; this
justifies modelling the drop's color reference (compared with `===` on
line 155) by its index into the spectrum. -/
lemma smooth_spectrum_nodup : SMOOTH_VIBGYOR_COLORS.Nodup := by decide

/-! ## Claim theorems -/

/-- C1: whenever the spawning color index changes during a tick, the new index
equals `(previous + 1) % spectrumLength` (App.jsx line 192), and it changes
only on a tick in which some active drop whose color is the currently-spawning
color has `row ≥ ⌊gridRows/2⌋` (the midpoint flag of lines 149 and 155) and
the next-color spawn queue was empty at that point of the tick (the test of
line 190; the queue is not modified earlier in the tick, so this is its
start-of-tick value). -/
theorem color_cycling_advance (rows cols : ℕ) (spec : List Color)
    (shuffle : List ℕ → List ℕ) (s s' : AnimState)
    (h : tick rows cols spec shuffle s = some s')
    (hchange : s'.colorIdx ≠ s.colorIdx) :
    s'.colorIdx = (s.colorIdx + 1) % spec.length ∧ s.queue = [] ∧
      ∃ d ∈ s.drops, d.colorIdx = s.colorIdx ∧ rows / 2 ≤ d.row := by
  obtain ⟨g1, g2, g3, upd, flag, h1, h2, h3, hs'⟩ := tick_inv h
  have hidx := advanceAndSpawn_colorIdx cols spec shuffle s g3 upd flag
  rw [← hs'] at hidx
  by_cases hcond : (flag && s.queue.isEmpty) = true
  · rw [if_pos hcond] at hidx
    rw [Bool.and_eq_true] at hcond
    obtain ⟨hflag, hqueue⟩ := hcond
    refine ⟨hidx, List.isEmpty_iff.mp hqueue, ?_⟩
    obtain ⟨-, hflag', -⟩ := dropsLoop_inv s.drops g2 [] false g3 upd flag h3
    rw [hflag', Bool.false_or] at hflag
    obtain ⟨d, hd, hp⟩ := List.any_eq_true.mp hflag
    rw [Bool.and_eq_true] at hp
    exact ⟨d, hd, eq_of_beq hp.1, of_decide_eq_true hp.2⟩
  · rw [if_neg hcond] at hidx
    exact absurd hidx hchange

/-- Witness for `color_cycling_advance`: with one row and one column, a drop of
the spawning color at row 0 is at the midpoint (`⌊1/2⌋ = 0`) and the queue is
empty, so the index advances from 0 to `(0 + 1) % 2 = 1`. -/
theorem color_cycling_advance_witness :
    (AnimState.mk [[Cell.mk 255 0 0 7]] [⟨0, 1, 0⟩, ⟨0, 0, 1⟩] 1 []).colorIdx =
      (0 + 1) % [((255 : ℕ), (0 : ℕ), (0 : ℕ)), ((0 : ℕ), (255 : ℕ), (0 : ℕ))].length :=
  (color_cycling_advance 1 1 [(255, 0, 0), (0, 255, 0)] id
    ⟨[[Cell.null]], [⟨0, 0, 0⟩], 0, []⟩
    ⟨[[Cell.mk 255 0 0 7]], [⟨0, 1, 0⟩, ⟨0, 0, 1⟩], 1, []⟩
    (by decide) (by decide)).1

set_option maxRecDepth 40000 in
/-- C2 counterexample: with 2 rows and 3 columns, the drop `{col 0, row 8}`
has advanced row `9 = rows + DROP_LIFE_SPAN`.  `9` does not *exceed*
`rows + DROP_LIFE_SPAN` and the column 0 lies inside `[0, 3)`, so the claim
predicts the drop survives the tick; the code removes it (App.jsx line 177
keeps a drop only while `newRow < gridRows + DROP_LIFE_SPAN`). -/
theorem drop_retirement_boundary_cex :
    ¬ ((8 : ℕ) + 1 > 2 + DROP_LIFE_SPAN) ∧ (0 : ℕ) < 3 ∧
    (tick 2 3 SMOOTH_VIBGYOR_COLORS id
        ⟨List.replicate 2 (List.replicate 3 Cell.null), [⟨0, 8, 5⟩], 0, []⟩).map
      AnimState.drops = some [] :=
  ⟨by decide, by decide, by decide⟩

/-- C2 amended: on every tick, a pre-existing drop survives into the new
active set iff its advanced row is **strictly below** `rows + DROP_LIFE_SPAN`
(i.e. it is removed as soon as the advanced row reaches that bound, not only
when it exceeds it) and its column is `< cols` (drop columns are always
non-negative, and no lower-bound test exists on line 177).  The resulting
active set is exactly the kept drops advanced by one row, possibly followed by
one newly spawned drop at row 0. -/
theorem drop_retirement_amended (rows cols : ℕ) (spec : List Color)
    (shuffle : List ℕ → List ℕ) (s s' : AnimState)
    (h : tick rows cols spec shuffle s = some s') :
    ∃ spawned : List Drop,
      s'.drops =
        (s.drops.filter (fun d =>
          decide (d.row + 1 < rows + DROP_LIFE_SPAN) && decide (d.col < cols))).map
          (fun d => { d with row := d.row + 1 }) ++ spawned ∧
      (spawned = [] ∨ ∃ c, c < cols ∧ spawned = [⟨c, 0, s'.colorIdx⟩]) := by
  obtain ⟨g1, g2, g3, upd, flag, h1, h2, h3, hs'⟩ := tick_inv h
  obtain ⟨hupd, -, -⟩ := dropsLoop_inv s.drops g2 [] false g3 upd flag h3
  obtain ⟨spawned, hdrops, hspawn⟩ := advanceAndSpawn_drops cols spec shuffle s g3 upd flag
  rw [← hs'] at hdrops hspawn
  rw [List.nil_append] at hupd
  refine ⟨spawned, ?_, hspawn⟩
  rw [hdrops, hupd]
  rfl

/-- Witness for `drop_retirement_amended`: one drop at row 0 survives (it is
advanced to row 1), and because the midpoint trigger fires a second drop is
spawned behind it. -/
theorem drop_retirement_amended_witness :
    ∃ spawned : List Drop,
      (AnimState.mk [[Cell.mk 255 0 0 7]] [⟨0, 1, 0⟩, ⟨0, 0, 0⟩] 0 []).drops =
        (([⟨0, 0, 0⟩] : List Drop).filter (fun d =>
          decide (d.row + 1 < 1 + DROP_LIFE_SPAN) && decide (d.col < 1))).map
          (fun d => { d with row := d.row + 1 }) ++ spawned ∧
      (spawned = [] ∨ ∃ c, c < 1 ∧
        spawned = [⟨c, 0, (AnimState.mk [[Cell.mk 255 0 0 7]]
          [⟨0, 1, 0⟩, ⟨0, 0, 0⟩] 0 []).colorIdx⟩]) :=
  drop_retirement_amended 1 1 [(255, 0, 0)] id
    ⟨[[Cell.null]], [⟨0, 0, 0⟩], 0, []⟩
    ⟨[[Cell.mk 255 0 0 7]], [⟨0, 1, 0⟩, ⟨0, 0, 0⟩], 0, []⟩ (by decide)

/-- C3: every cell holding `{r,g,b,life}` at the start of a tick whose
position is not repainted by any active drop's trail during the tick is
decayed (App.jsx lines 132–141): if `life > 0` the life drops by exactly 1;
if `life` had already reached 0 the cell becomes empty (`null`). -/
theorem decay_monotonicity (rows cols : ℕ) (spec : List Color)
    (shuffle : List ℕ → List ℕ) (s s' : AnimState)
    (h : tick rows cols spec shuffle s = some s')
    (r c : ℕ) (hr : r < rows) (hc : c < cols) (cr cg cb l : ℕ)
    (hcell : getCell s.grid r c = some (Cell.mk cr cg cb l))
    (hnp : ∀ d ∈ s.drops, ¬ coversCell rows cols d r c) :
    getCell s'.grid r c = some (if 0 < l then Cell.mk cr cg cb (l - 1) else Cell.null) := by
  obtain ⟨g1, g2, g3, upd, flag, h1, h2, h3, hs'⟩ := tick_inv h
  obtain ⟨g1', hcopy, hg1, hpt1⟩ := copyGrid_spec rows cols s.grid
  have he1 : g1' = g1 := Option.some.inj (hcopy.symm.trans h1)
  rw [he1] at hg1 hpt1
  obtain ⟨g2', hdec, hg2, hpt2⟩ := decayGrid_spec g1 hg1
  have he2 : g2' = g2 := Option.some.inj (hdec.symm.trans h2)
  rw [he2] at hg2 hpt2
  obtain ⟨-, -, hpres⟩ := dropsLoop_inv s.drops g2 [] false g3 upd flag h3
  have hgrid : s'.grid = g3 := by
    rw [hs']
    exact advanceAndSpawn_grid cols spec shuffle s g3 upd flag
  rw [hgrid, hpres r c hnp, hpt2 r c hr hc, hpt1 r c hr hc, hcell]
  rfl

/-- Witness for `decay_monotonicity`: in a 1×2 grid with no drops, the cell
`{1,2,3, life 4}` decays to life 3 (and, per the same theorem applied at the
neighbouring cell, a cell at life 0 becomes null). -/
theorem decay_monotonicity_witness :
    getCell [[Cell.mk 1 2 3 3, Cell.null]] 0 0 = some (Cell.mk 1 2 3 3) :=
  decay_monotonicity 1 2 [] id
    ⟨[[Cell.mk 1 2 3 4, Cell.mk 9 9 9 0]], [], 0, []⟩
    ⟨[[Cell.mk 1 2 3 3, Cell.null]], [], 0, []⟩
    (by decide) 0 0 (by decide) (by decide) 1 2 3 4 (by decide)
    (fun d hd => absurd hd (by simp))

/-- C4: painting one drop's trail (App.jsx lines 159–173) sets exactly the
cells in the drop's column from its current row upward for up to
`DROP_LIFE_SPAN = 7` rows, clipped to the grid bounds, to the drop's color
with `life = DROP_LIFE_SPAN − (distance from the head row)`, overwriting any
prior value there and leaving all other cells unchanged; in particular the
head cell itself receives life 7. -/
theorem trail_paint_cells (rows cols : ℕ) (spec : List Color) (d : Drop)
    (g g' : Grid) (cr cg cb : ℕ) (hg : gridDims g rows cols)
    (hcolor : spec[d.colorIdx]? = some (cr, cg, cb))
    (h : paintTrail rows cols spec d g = some g') :
    (∀ r c, getCell g' r c =
      if coversCell rows cols d r c
      then some (Cell.mk cr cg cb (DROP_LIFE_SPAN - (d.row - r)))
      else getCell g r c) ∧
    (d.row < rows → d.col < cols →
      getCell g' d.row d.col = some (Cell.mk cr cg cb DROP_LIFE_SPAN)) := by
  obtain ⟨g'', hp, hg', hpt⟩ := paintTrail_spec d hcolor g hg
  obtain rfl : g'' = g' := Option.some.inj (hp.symm.trans h)
  refine ⟨hpt, fun hdr hdc => ?_⟩
  rw [hpt d.row d.col,
    if_pos ⟨rfl, le_refl _, by rw [DROP_LIFE_SPAN_eq]; omega, hdr, hdc⟩]
  simp

/-- Witness for `trail_paint_cells`: a drop at the top-left of a 1×1 grid
paints its head cell with its color at life `DROP_LIFE_SPAN = 7`. -/
theorem trail_paint_cells_witness :
    getCell [[Cell.mk 9 8 7 7]] 0 0 = some (Cell.mk 9 8 7 DROP_LIFE_SPAN) :=
  (trail_paint_cells 1 1 [(9, 8, 7)] ⟨0, 0, 0⟩ [[Cell.null]] [[Cell.mk 9 8 7 7]]
    9 8 7 (by decide) rfl (by decide)).2 (by decide) (by decide)

/-- Helper for the scenario claims: when the midpoint flag is down and the
queue starts with an in-bounds column, the spawn step pops that column and
appends a fresh drop at row 0 with the current color. -/
lemma advanceAndSpawn_noflag_cons {cols : ℕ} {spec : List Color}
    {shuffle : List ℕ → List ℕ} {s : AnimState} {g : Grid} {upd : List Drop}
    {c0 : ℕ} {t : List ℕ} (hq : s.queue = c0 :: t) (hc0 : c0 < cols) :
    advanceAndSpawn cols spec shuffle s g upd false =
      ⟨g, upd ++ [⟨c0, 0, s.colorIdx⟩], s.colorIdx, t⟩ := by
  unfold advanceAndSpawn
  rw [if_neg (by simp), hq]
  simp [hc0]

/-- Helper for the scenario claims: the drops loop on a single drop. -/
lemma dropsLoop_single {rows cols : ℕ} {spec : List Color} {idx : ℕ} {d : Drop}
    {g g' : Grid} (hpaint : paintTrail rows cols spec d g = some g') :
    dropsLoop rows cols spec idx [d] g [] false =
      some (g', if dropKeep rows cols d then [{ d with row := d.row + 1 }] else [],
        d.colorIdx == idx && decide (rows / 2 ≤ d.row)) := by
  simp only [dropsLoop, hpaint, Option.bind_eq_bind, Option.some_bind, Bool.false_or]
  cases hk : dropKeep rows cols d <;> simp [hk, dropsLoop]

set_option maxRecDepth 40000 in
/-- C5 counterexample: from a freshly initialized 15×20 grid (identity
shuffle, so the first queued column is 0), after tick 1 exactly one drop
exists, at row 0 with the first spectrum color; but during tick 2 the trail
paint writes the head cell at row 0 with life `DROP_LIFE_SPAN = 7`
(App.jsx line 165 with `drop.row - r = 0`), not 6 as the claim states. -/
theorem two_tick_scenario_cex :
    (tick 15 20 SMOOTH_VIBGYOR_COLORS id (initState 15 20 id)).map AnimState.drops =
      some [⟨0, 0, 0⟩] ∧
    ((tick 15 20 SMOOTH_VIBGYOR_COLORS id (initState 15 20 id)).bind
        (fun s1 => tick 15 20 SMOOTH_VIBGYOR_COLORS id s1)).bind
      (fun s2 => getCell s2.grid 0 0) = some (Cell.mk 255 0 0 7) ∧
    Cell.mk 255 0 0 7 ≠ Cell.mk 255 0 0 6 :=
  ⟨by decide, by decide, by decide⟩

set_option maxRecDepth 40000 in
/-- C5 amended: starting from a freshly initialized 15×20 grid, after tick 1
exactly one drop exists, at row 0 with the first spectrum color (255,0,0); on
tick 2 that drop paints the cell at row 0 of its column with life **7** (not
6 — the head cell is painted at full life, and shows life 6 only after the
next tick) and ends the tick at row 1. -/
theorem two_tick_scenario_amended (shuffle : List ℕ → List ℕ)
    (hperm : (shuffle (List.range 20)).Perm (List.range 20))
    (s1 s2 : AnimState)
    (h1 : tick 15 20 SMOOTH_VIBGYOR_COLORS shuffle (initState 15 20 shuffle) = some s1)
    (h2 : tick 15 20 SMOOTH_VIBGYOR_COLORS shuffle s1 = some s2) :
    SMOOTH_VIBGYOR_COLORS.head? = some (255, 0, 0) ∧
    s1.drops = [⟨(generateNewSpawnColumns 20 shuffle).headI, 0, 0⟩] ∧
    (generateNewSpawnColumns 20 shuffle).headI < 20 ∧
    s2.drops.head? = some ⟨(generateNewSpawnColumns 20 shuffle).headI, 1, 0⟩ ∧
    getCell s2.grid 0 ((generateNewSpawnColumns 20 shuffle).headI) =
      some (Cell.mk 255 0 0 7) := by
  obtain ⟨hqlen, hqmem⟩ := generateNewSpawnColumns_props 20 shuffle (by omega) hperm
  have hq5 : (generateNewSpawnColumns 20 shuffle).length = 5 := by
    rw [hqlen]
    decide
  obtain ⟨c0, t, hq⟩ :=
    List.exists_cons_of_ne_nil
      (fun hnil : generateNewSpawnColumns 20 shuffle = [] => by
        rw [hnil] at hq5
        exact absurd hq5 (by decide))
  have hc0 : c0 < 20 := hqmem c0 (hq ▸ List.mem_cons_self c0 t)
  have hheadI : (generateNewSpawnColumns 20 shuffle).headI = c0 := by rw [hq]; rfl
  -- tick 1
  obtain ⟨ga, hcopy, hga, hpta⟩ := copyGrid_spec 15 20 (initState 15 20 shuffle).grid
  obtain ⟨gb, hdecay, hgb, hptb⟩ := decayGrid_spec ga hga
  have hdl1 : dropsLoop 15 20 SMOOTH_VIBGYOR_COLORS (initState 15 20 shuffle).colorIdx
      (initState 15 20 shuffle).drops gb [] false = some (gb, [], false) := rfl
  have htick1 := tick_eq shuffle (initState 15 20 shuffle) hcopy hdecay hdl1
  have hqinit : (initState 15 20 shuffle).queue = c0 :: t := hq
  have hs1 : s1 = ⟨gb, [⟨c0, 0, 0⟩], 0, t⟩ := by
    have := Option.some.inj (h1.symm.trans htick1)
    rw [this, advanceAndSpawn_noflag_cons hqinit hc0]
    rfl
  subst hs1
  -- the grid after tick 1 holds the empty object everywhere
  have hgbcell : ∀ r c, r < 15 → c < 20 → getCell gb r c = some Cell.emptyObj := by
    intro r c hr hc
    have hinit : (initState 15 20 shuffle).grid =
        List.replicate 15 (List.replicate 20 Cell.null) := rfl
    rw [hptb r c hr hc, hpta r c hr hc, hinit, getCell_replicate 15 20 r c hr hc]
    rfl
  -- tick 2
  obtain ⟨gc, hcopy2, hgc, hptc⟩ := copyGrid_spec 15 20 gb
  obtain ⟨gd, hdecay2, hgd, hptd⟩ := decayGrid_spec gc hgc
  have hcolor : SMOOTH_VIBGYOR_COLORS[(0 : ℕ)]? = some (255, 0, 0) := by decide
  obtain ⟨gp, hpaint, hgp, hptp⟩ :=
    paintTrail_spec (⟨c0, 0, 0⟩ : Drop) hcolor gd hgd
  have hkeep : dropKeep 15 20 ⟨c0, 0, 0⟩ = true := by
    simp [dropKeep, DROP_LIFE_SPAN_eq, hc0]
  have hflag2 : ((⟨c0, 0, 0⟩ : Drop).colorIdx == 0 &&
      decide (15 / 2 ≤ (⟨c0, 0, 0⟩ : Drop).row)) = false := rfl
  have hdl2 : dropsLoop 15 20 SMOOTH_VIBGYOR_COLORS 0 [⟨c0, 0, 0⟩] gd [] false =
      some (gp, [⟨c0, 1, 0⟩], false) := by
    rw [dropsLoop_single hpaint, hkeep, hflag2]
    rfl
  have htick2 := tick_eq shuffle ⟨gb, [⟨c0, 0, 0⟩], 0, t⟩ hcopy2 hdecay2 hdl2
  obtain ⟨c1, t2, ht⟩ :=
    List.exists_cons_of_ne_nil
      (fun hnil : t = [] => by
        rw [hq, hnil] at hq5
        simp at hq5)
  have hc1 : c1 < 20 := hqmem c1 (by rw [hq, ht]; exact List.mem_cons_of_mem _ (List.mem_cons_self c1 t2))
  have hqs1 : (AnimState.mk gb [⟨c0, 0, 0⟩] 0 t).queue = c1 :: t2 := ht
  have hs2 : s2 = ⟨gp, [⟨c0, 1, 0⟩] ++ [⟨c1, 0, 0⟩], 0, t2⟩ := by
    have := Option.some.inj (h2.symm.trans htick2)
    rw [this, advanceAndSpawn_noflag_cons hqs1 hc1]
  subst hs2
  refine ⟨by decide, by rw [hheadI], by rw [hheadI]; exact hc0, by rw [hheadI]; rfl, ?_⟩
  rw [hheadI]
  show getCell gp 0 c0 = some (Cell.mk 255 0 0 7)
  rw [hptp 0 c0, if_pos ?cov]
  case cov =>
    refine ⟨rfl, ?_, ?_, ?_, hc0⟩ <;> simp [DROP_LIFE_SPAN_eq]
  simp [DROP_LIFE_SPAN_eq]

set_option maxRecDepth 100000 in
/-- Witness for `two_tick_scenario_amended` with the identity shuffle: the
first queued column is 0, the drop is at row 1 after two ticks and row 0 of
column 0 carries the color (255,0,0) at life 7. -/
theorem two_tick_scenario_amended_witness :
    SMOOTH_VIBGYOR_COLORS.head? = some (255, 0, 0) ∧
    (AnimState.mk (List.replicate 15 (List.replicate 20 Cell.emptyObj))
        [⟨0, 0, 0⟩] 0 [1, 2, 3, 4]).drops =
      [⟨(generateNewSpawnColumns 20 id).headI, 0, 0⟩] ∧
    (generateNewSpawnColumns 20 id).headI < 20 ∧
    (AnimState.mk ((List.replicate 15 (List.replicate 20 Cell.emptyObj)).set 0
          ((List.replicate 20 Cell.emptyObj).set 0 (Cell.mk 255 0 0 7)))
        [⟨0, 1, 0⟩, ⟨1, 0, 0⟩] 0 [2, 3, 4]).drops.head? =
      some ⟨(generateNewSpawnColumns 20 id).headI, 1, 0⟩ ∧
    getCell (AnimState.mk ((List.replicate 15 (List.replicate 20 Cell.emptyObj)).set 0
          ((List.replicate 20 Cell.emptyObj).set 0 (Cell.mk 255 0 0 7)))
        [⟨0, 1, 0⟩, ⟨1, 0, 0⟩] 0 [2, 3, 4]).grid 0
        ((generateNewSpawnColumns 20 id).headI) =
      some (Cell.mk 255 0 0 7) :=
  two_tick_scenario_amended id (List.Perm.refl _)
    ⟨List.replicate 15 (List.replicate 20 Cell.emptyObj), [⟨0, 0, 0⟩], 0, [1, 2, 3, 4]⟩
    ⟨(List.replicate 15 (List.replicate 20 Cell.emptyObj)).set 0
        ((List.replicate 20 Cell.emptyObj).set 0 (Cell.mk 255 0 0 7)),
      [⟨0, 1, 0⟩, ⟨1, 0, 0⟩], 0, [2, 3, 4]⟩
    (by decide) (by decide)

/-- C6 counterexample: `generateSmoothSpectrum 7` has 6 entries, not 7: with
`stepsPerSegment = ⌊7/6⌋ = 1` the six segments produce 6 colors in total and
`colors.slice(0, numSteps)` (App.jsx line 38) only truncates — it never
pads. -/
theorem spectrum_length_cex :
    (6 : ℕ) ≤ 7 ∧ (generateSmoothSpectrum 7).length = 6 ∧ (6 : ℕ) ≠ 7 :=
  ⟨by decide, by decide, by decide⟩

/-- The ramp value `⌊i · 255 / s⌋` never exceeds 255 for `i < s`. -/
lemma ramp_le {s i : ℕ} (h : i < s) : i * 255 / s ≤ 255 :=
  Nat.div_le_of_le_mul (Nat.mul_le_mul_right 255 (le_of_lt h))

/-- C6 amended: for any requested step count S ≥ 6, the spectrum has exactly
`6 · ⌊S/6⌋` entries (equal to S exactly when 6 divides S — for other S the
`slice` truncation cannot pad the list up to S); every entry is a valid RGB
triple with all components in [0, 255]; the first entry is pure red
(255, 0, 0) and the last lies on the magenta→red closing segment toward red
(red component 255, green component 0). -/
theorem spectrum_properties_amended (S : ℕ) (hS : 6 ≤ S) :
    (generateSmoothSpectrum S).length = 6 * (S / 6) ∧
    (∀ t ∈ generateSmoothSpectrum S, t.1 ≤ 255 ∧ t.2.1 ≤ 255 ∧ t.2.2 ≤ 255) ∧
    (generateSmoothSpectrum S).head? = some (255, 0, 0) ∧
    (generateSmoothSpectrum S).getLast?.map (fun t => (t.1, t.2.1)) = some (255, 0) := by
  have hs1 : max 1 (S / 6) = S / 6 := by omega
  have hspos : 1 ≤ S / 6 := by omega
  simp only [generateSmoothSpectrum, hs1]
  have hlen : ((List.range (S / 6)).map (fun i => ((255 : ℕ), i * 255 / (S / 6), (0 : ℕ))) ++
      ((List.range (S / 6)).map (fun i => (255 - i * 255 / (S / 6), (255 : ℕ), (0 : ℕ))) ++
       ((List.range (S / 6)).map (fun i => ((0 : ℕ), (255 : ℕ), i * 255 / (S / 6))) ++
        ((List.range (S / 6)).map (fun i => ((0 : ℕ), 255 - i * 255 / (S / 6), (255 : ℕ))) ++
         ((List.range (S / 6)).map (fun i => (i * 255 / (S / 6), (0 : ℕ), (255 : ℕ))) ++
          (List.range (S / 6)).map (fun i => ((255 : ℕ), (0 : ℕ), 255 - i * 255 / (S / 6)))))))).length =
      6 * (S / 6) := by
    simp only [List.length_append, List.length_map, List.length_range]
    ring
  rw [List.take_of_length_le (by rw [hlen]; omega)]
  refine ⟨hlen, ?_, ?_, ?_⟩
  · intro t ht
    simp only [List.mem_append, List.mem_map, List.mem_range] at ht
    rcases ht with ⟨i, hi, rfl⟩ | ⟨i, hi, rfl⟩ | ⟨i, hi, rfl⟩ | ⟨i, hi, rfl⟩ |
      ⟨i, hi, rfl⟩ | ⟨i, hi, rfl⟩ <;>
      exact ⟨by simp [Nat.sub_le, ramp_le hi], by simp [Nat.sub_le, ramp_le hi],
        by simp [Nat.sub_le, ramp_le hi]⟩
  · rw [List.head?_eq_getElem?, List.getElem?_append_left (by simp; omega),
      List.getElem?_map, List.getElem?_range (by omega)]
    simp
  · have hlast : ((List.range (S / 6)).map
        (fun i => ((255 : ℕ), (0 : ℕ), 255 - i * 255 / (S / 6)))).getLast? =
        some (255, 0, 255 - (S / 6 - 1) * 255 / (S / 6)) := by
      rw [List.getLast?_eq_getElem?, List.length_map, List.length_range,
        List.getElem?_map, List.getElem?_range (by omega)]
      rfl
    rw [List.getLast?_append, List.getLast?_append, List.getLast?_append,
      List.getLast?_append, List.getLast?_append, hlast]
    rfl

/-- Witness for `spectrum_properties_amended` at S = 12: the spectrum has
`6 · ⌊12/6⌋ = 12` entries. -/
theorem spectrum_properties_amended_witness :
    (generateSmoothSpectrum 12).length = 6 * (12 / 6) :=
  (spectrum_properties_amended 12 (by decide)).1

set_option maxRecDepth 40000 in
/-- C7 (code bug): the comment on App.jsx lines 58–60 documents each cell as
`null` or an object `{r, g, b, life}`, but the copy step
`{ ...prevGridState[r][c] }` (line 128) turns every `null` cell into the
empty object `{}`, which the decay branches (lines 135–139) never touch
because `{}` is truthy while `{}.life` is `undefined`: already after the
first tick from a fresh 15×20 grid, the untouched cell (0,1) holds `{}`,
which is neither `null` nor an `{r,g,b,life}` record with positive life. -/
theorem cell_shape_violation :
    (tick 15 20 SMOOTH_VIBGYOR_COLORS id (initState 15 20 id)).bind
      (fun s => getCell s.grid 0 1) = some Cell.emptyObj ∧
    Cell.emptyObj ≠ Cell.null ∧
    ∀ r g b life, Cell.emptyObj ≠ Cell.mk r g b life :=
  ⟨by decide, by decide, fun r g b life h => Cell.noConfusion h⟩

/-- C8: the effect body that runs when the grid dimensions change (App.jsx
lines 107–116) performs a full reset: the active drop list becomes empty, the
spawning color index returns to 0, the spawn queue is repopulated for the new
width (`min (max 1 ⌊cols/4⌋) cols` columns, all inside the new bounds), and
the grid becomes an all-empty matrix of exactly the new dimensions. -/
theorem resize_reset (rows cols : ℕ) (shuffle : List ℕ → List ℕ) (hc : 1 ≤ cols)
    (hperm : (shuffle (List.range cols)).Perm (List.range cols)) :
    (initState rows cols shuffle).drops = [] ∧
    (initState rows cols shuffle).colorIdx = 0 ∧
    (initState rows cols shuffle).grid.length = rows ∧
    (∀ row ∈ (initState rows cols shuffle).grid,
      row.length = cols ∧ ∀ cell ∈ row, cell = Cell.null) ∧
    (initState rows cols shuffle).queue.length = min (max 1 (cols / 4)) cols ∧
    ∀ c ∈ (initState rows cols shuffle).queue, c < cols := by
  obtain ⟨hlen, hmem⟩ := generateNewSpawnColumns_props cols shuffle hc hperm
  refine ⟨rfl, rfl, by simp [initState], ?_, hlen, hmem⟩
  intro row hrow
  have hrep : row = List.replicate cols Cell.null := List.eq_of_mem_replicate hrow
  subst hrep
  exact ⟨List.length_replicate cols _, fun cell hcell => List.eq_of_mem_replicate hcell⟩

/-- Witness for `resize_reset` at the 5×5 grid of the scenario: the fresh
queue holds `min (max 1 ⌊5/4⌋) 5 = 1` column. -/
theorem resize_reset_witness :
    (initState 5 5 id).queue.length = min (max 1 (5 / 4)) 5 :=
  (resize_reset 5 5 id (by decide) (List.Perm.refl _)).2.2.2.2.1

/-- C9: for any `parseInt` result (a number, or `none` for `NaN`), the stored
dimension lies in [MIN_DIMENSION, MAX_DIMENSION] = [1, 25]; in-range values
are stored unchanged, out-of-range numeric values are clamped to the nearest
bound (0 is out of range and, being falsy, also falls back to the minimum),
and non-numeric input falls back to the minimum bound 1. -/
theorem dimension_clamp_props (v : Option ℤ) :
    MIN_DIMENSION ≤ clampDimension v ∧ clampDimension v ≤ MAX_DIMENSION ∧
    (∀ n : ℤ, v = some n → MIN_DIMENSION ≤ n → n ≤ MAX_DIMENSION → clampDimension v = n) ∧
    (∀ n : ℤ, v = some n → n < MIN_DIMENSION → clampDimension v = MIN_DIMENSION) ∧
    (∀ n : ℤ, v = some n → MAX_DIMENSION < n → clampDimension v = MAX_DIMENSION) ∧
    (v = none → clampDimension v = MIN_DIMENSION) := by
  cases v with
  | none =>
      exact ⟨by decide, by decide,
        fun m hm => Option.noConfusion hm,
        fun m hm => Option.noConfusion hm,
        fun m hm => Option.noConfusion hm,
        fun _ => by decide⟩
  | some n =>
      by_cases h0 : n = 0
      · subst h0
        exact ⟨by decide, by decide,
          fun m hm h1 h2 => absurd h1 (by rw [← Option.some.inj hm]; decide),
          fun m hm h1 => by decide,
          fun m hm h2 => absurd h2 (by rw [← Option.some.inj hm]; decide),
          fun h => Option.noConfusion h⟩
      · have hval : clampDimension (some n) = min (max n MIN_DIMENSION) MAX_DIMENSION := by
          show min (max (if n = 0 then MIN_DIMENSION else n) MIN_DIMENSION) MAX_DIMENSION =
            min (max n MIN_DIMENSION) MAX_DIMENSION
          rw [if_neg h0]
        have hmin : MIN_DIMENSION = 1 := rfl
        have hmax : MAX_DIMENSION = 25 := rfl
        refine ⟨?_, ?_, ?_, ?_, ?_, fun h => Option.noConfusion h⟩
        · rw [hval, hmin, hmax]
          omega
        · rw [hval, hmin, hmax]
          omega
        · intro m hm ha hb
          obtain rfl : n = m := Option.some.inj hm
          rw [hmin] at ha
          rw [hmax] at hb
          rw [hval, hmin, hmax]
          omega
        · intro m hm ha
          obtain rfl : n = m := Option.some.inj hm
          rw [hmin] at ha
          rw [hval, hmin, hmax]
          omega
        · intro m hm ha
          obtain rfl : n = m := Option.some.inj hm
          rw [hmax] at ha
          rw [hval, hmin, hmax]
          omega

/-- Witness for `dimension_clamp_props`: the out-of-range input 30 is clamped
to the maximum bound 25. -/
theorem dimension_clamp_props_witness :
    clampDimension (some 30) = MAX_DIMENSION :=
  (dimension_clamp_props (some 30)).2.2.2.2.1 30 rfl (by decide)

/-- C10: on every tick — including the first after a resize, when the
previous grid snapshot may have arbitrary (even ragged) dimensions and the
queue may hold stale columns — every grid access performed while copying,
decaying, painting trails and spawning is within the current bounds, so the
tick (whose every access is modelled as fallible) never fails.  The only
hypothesis is the invariant, maintained by the program, that each active
drop's color references an entry of the spectrum array. -/
theorem tick_no_out_of_bounds (rows cols : ℕ) (spec : List Color)
    (shuffle : List ℕ → List ℕ) (s : AnimState)
    (hidx : ∀ d ∈ s.drops, d.colorIdx < spec.length) :
    (tick rows cols spec shuffle s).isSome := by
  obtain ⟨g1, hcopy, hg1, -⟩ := copyGrid_spec rows cols s.grid
  obtain ⟨g2, hdecay, hg2, -⟩ := decayGrid_spec g1 hg1
  obtain ⟨g3, upd, flag, hdl, -⟩ := dropsLoop_total s.drops g2 [] false hg2 hidx
  rw [tick_eq shuffle s hcopy hdecay hdl]
  rfl

/-- Witness for `tick_no_out_of_bounds`: a tick on a 2×2 grid with one active
drop and a stale out-of-range column 5 in the queue succeeds. -/
theorem tick_no_out_of_bounds_witness :
    (tick 2 2 [(1, 2, 3)] id
      ⟨[[Cell.null, Cell.null], [Cell.null, Cell.null]], [⟨0, 0, 0⟩], 0, [5]⟩).isSome :=
  tick_no_out_of_bounds 2 2 [(1, 2, 3)] id
    ⟨[[Cell.null, Cell.null], [Cell.null, Cell.null]], [⟨0, 0, 0⟩], 0, [5]⟩
    (by decide)

end ColorRain
